import Mathlib

/-!
Verification of the task-manager core in `src/task_manager.py`.

The store is a Python list of dict records; we embed it as a `List Task`.
Mutating operations in the source take the list, mutate it in place, and
persist via `save_tasks`; the persistence call has no effect on the
in-memory list, so each operation is embedded as a pure function from the
old list to the new list (wrapped in `Option` when the source reports
`Task ID not found.`).  Interactive `input(...)` prompts are the excluded
menu collaborator: each embedded operation takes the final accepted,
stripped input strings as arguments, exactly as the source's core logic
receives them.
-/

namespace TaskManager

/-- One task record: the dict built in `add_task` with keys
`id`, `title`, `description`, `due_date`, `status`, `priority`.
`priority` is optional because persisted records may lack the key:
every read site uses `t.get('priority', 'Medium')`. -/
structure Task where
  id : String
  title : String
  description : String
  due_date : String
  status : String
  priority : Option String

deriving instance Repr, DecidableEq for Task

/-- The constant `PRIORITY_LEVELS = ['Low', 'Medium', 'High']`. -/
def PRIORITY_LEVELS : List String := ["Low", "Medium", "High"]

/-- The constant `STATUS_OPTIONS = ['Pending', 'Completed']`. -/
def STATUS_OPTIONS : List String := ["Pending", "Completed"]

/-- Decimal digits of `n` (most significant first) prepended to `acc`:
the digit loop underlying Python's `str(new_id)` for a nonnegative int.
`fuel` bounds the recursion depth; `n + 1` probes always suffice since
`n / 10` strictly decreases. -/
def natDigitsAux (fuel n : Nat) (acc : List Char) : List Char :=
  match fuel with
  | 0 => acc
  | fuel + 1 =>
    let d := Char.ofNat (48 + n % 10)
    if n < 10 then d :: acc
    else natDigitsAux fuel (n / 10) (d :: acc)

/-- Python's `str(n)` for a nonnegative int `n`: decimal rendering. -/
def natToString (n : Nat) : String :=
  String.mk (natDigitsAux (n + 1) n [])

/-- Decimal value of a digit string; used only to invert `natToString`. -/
def digitsVal (cs : List Char) : Nat :=
  cs.foldl (fun a c => 10 * a + (c.toNat - 48)) 0

/-- The probing loop of `generate_task_id`: `new_id = 1; while str(new_id)
in existing_ids: new_id += 1`.  `fuel` bounds the number of probes; the
source loop terminates within `len(tasks) + 1` probes because the id set
has at most `len(tasks)` elements. -/
def probeId (ids : List String) : Nat → Nat → Nat
  | 0, new_id => new_id
  | fuel + 1, new_id =>
    if natToString new_id ∈ ids then probeId ids fuel (new_id + 1) else new_id

/-- The function `generate_task_id(tasks)`: smallest positive integer whose
decimal string is not an existing id, returned as a string. -/
def generate_task_id (tasks : List Task) : String :=
  natToString (probeId (tasks.map Task.id) (tasks.length + 1) 1)

/-- Gregorian leap-year test, as in Python's `datetime`. -/
def isLeap (y : Nat) : Bool :=
  (y % 4 == 0 && y % 100 != 0) || y % 400 == 0

/-- Number of days in month `m` of year `y`. -/
def daysInMonth (y m : Nat) : Nat :=
  if m = 2 then (if isLeap y then 29 else 28)
  else if m = 4 ∨ m = 6 ∨ m = 9 ∨ m = 11 then 30
  else 31

/-- Split a character list into the groups separated by `sep`, keeping
empty groups, as Python's `split` does. -/
def splitOnChar (sep : Char) : List Char → List (List Char)
  | [] => [[]]
  | c :: rest =>
    match splitOnChar sep rest with
    | [] => if c = sep then [[], []] else [[c]]
    | g :: gs => if c = sep then [] :: g :: gs else (c :: g) :: gs

/-- A numeric field of at most `maxLen` digits, as accepted by a
`strptime` directive such as `%Y` (up to 4 digits) or `%m` (up to 2). -/
def parseField (cs : List Char) (maxLen : Nat) : Option Nat :=
  if 1 ≤ cs.length ∧ cs.length ≤ maxLen ∧ cs.all Char.isDigit then
    some (digitsVal cs)
  else none

/-- The function `validate_date(date_str)`.  Modelled from the spec: the
source delegates to the external `datetime.strptime(date_str, '%Y-%m-%d')`,
which succeeds exactly when the string is `year-month-day` with numeric
fields of bounded width naming a real calendar date (year at least 1). -/
def validate_date (date_str : String) : Bool :=
  match splitOnChar '-' date_str.data with
  | [ys, ms, ds] =>
    match parseField ys 4, parseField ms 2, parseField ds 2 with
    | some y, some m, some d =>
        decide (1 ≤ y) && decide (1 ≤ m) && decide (m ≤ 12) &&
        decide (1 ≤ d) && decide (d ≤ daysInMonth y m)
    | _, _, _ => false
  | _ => false

/-- The function `add_task(tasks)` after its prompt loops have produced a
title, a description, a `validate_date`-accepted due date and a
capitalized priority from `PRIORITY_LEVELS`: builds the record with a
fresh id and status `'Pending'`, appends it, and returns the new list
together with the created task. -/
def add_task (tasks : List Task) (title description due_date priority : String) :
    List Task × Task :=
  let task : Task :=
    { id := generate_task_id tasks
      title := title
      description := description
      due_date := due_date
      status := "Pending"
      priority := some priority }
  (tasks ++ [task], task)

/-- Iterated `add_task` calls, one per argument tuple
(title, description, due date, priority). -/
def add_many (tasks : List Task) : List (String × String × String × String) → List Task
  | [] => tasks
  | args :: rest =>
    add_many (add_task tasks args.1 args.2.1 args.2.2.1 args.2.2.2).1 rest

/-- Field assignments of `update_task` once a matching task is found:
a non-blank description is stored; a due date is stored when non-blank and
valid (the source's prompt loop only ever accepts a blank or a valid
date); a capitalized status is stored only when it is in
`STATUS_OPTIONS`, otherwise silently ignored; likewise for priority
against `PRIORITY_LEVELS`. -/
def applyUpdate (t : Task) (desc due status priority : String) : Task :=
  let t1 := if desc ≠ "" then { t with description := desc } else t
  let t2 := if due ≠ "" ∧ validate_date due then { t1 with due_date := due } else t1
  let t3 := if status ∈ STATUS_OPTIONS then { t2 with status := status } else t2
  if priority ∈ PRIORITY_LEVELS then { t3 with priority := some priority } else t3

/-- The function `update_task(tasks)` given the entered id and the four
(stripped, and for status/priority capitalized) field inputs: linear scan
for the first task with the given id; `none` models the source printing
`Task ID not found.` and leaving the list untouched. -/
def update_task : List Task → String → String → String → String → String →
    Option (List Task)
  | [], _, _, _, _, _ => none
  | t :: rest, task_id, desc, due, status, priority =>
    if t.id = task_id then some (applyUpdate t desc due status priority :: rest)
    else (update_task rest task_id desc due status priority).map (t :: ·)

/-- The function `mark_completed(tasks)` given the entered id: linear scan
for the first task with the given id, setting its status to
`'Completed'`; `none` models `Task ID not found.`. -/
def mark_completed : List Task → String → Option (List Task)
  | [], _ => none
  | t :: rest, task_id =>
    if t.id = task_id then some ({ t with status := "Completed" } :: rest)
    else (mark_completed rest task_id).map (t :: ·)

/-- The function `delete_task(tasks)` given the entered id: removes the
first task with the given id (`tasks.pop(i)`); `none` models
`Task ID not found.`. -/
def delete_task : List Task → String → Option (List Task)
  | [], _ => none
  | t :: rest, task_id =>
    if t.id = task_id then some rest
    else (delete_task rest task_id).map (t :: ·)

/-- Python's substring test `needle in hay`: `needle` occurs contiguously
in `hay`. -/
def pySubstr (needle hay : String) : Bool :=
  (List.range (hay.data.length + 1)).any
    (fun i => List.isPrefixOf needle.data (hay.data.drop i))

/-- The function `search_tasks(tasks)` given the entered keyword: the
keyword is lowercased and matched as a substring of the lowercased title
or description. -/
def search_tasks (tasks : List Task) (keyword : String) : List Task :=
  let kw := keyword.toLower
  tasks.filter (fun t => pySubstr kw t.title.toLower || pySubstr kw t.description.toLower)

/-- The three filter menu choices of `filter_tasks`; `byPriority` carries
the capitalized priority string entered at the prompt (the source only
reaches the filter when it is in `PRIORITY_LEVELS`). -/
inductive FilterChoice where
  | pending : FilterChoice
  | completed : FilterChoice
  | byPriority : String → FilterChoice

/-- The function `filter_tasks(tasks)` for each menu choice. -/
def filter_tasks (tasks : List Task) : FilterChoice → List Task
  | FilterChoice.pending => tasks.filter (fun t => t.status == "Pending")
  | FilterChoice.completed => tasks.filter (fun t => t.status == "Completed")
  | FilterChoice.byPriority pr => tasks.filter (fun t => t.priority.getD "Medium" == pr)

/-- The three counts printed by `task_summary`. -/
structure Summary where
  total : Nat
  pending : Nat
  completed : Nat

deriving instance Repr, DecidableEq for Summary

/-- The function `task_summary(tasks)`: `len(tasks)` and the two
`sum(1 for t in tasks if ...)` counts. -/
def task_summary (tasks : List Task) : Summary where
  total := tasks.length
  pending := tasks.countP (fun t => t.status == "Pending")
  completed := tasks.countP (fun t => t.status == "Completed")

/-- The comparison key of `sort_tasks`: `sorted(tasks, key=lambda t:
t['due_date'])` orders by the due-date strings. -/
def dueLe (a b : Task) : Bool :=
  decide (a.due_date ≤ b.due_date)

/-- The function `sort_tasks(tasks)`: Python's `sorted` is a stable sort
by the key, embedded as a stable merge sort under `dueLe`. -/
def sort_tasks (tasks : List Task) : List Task :=
  tasks.mergeSort dueLe

/-- The exception raised by the external `json.load` on malformed
content, caught by `load_tasks`. -/
inductive JSONDecodeError where
  | mk : JSONDecodeError

/-- The function `load_tasks()`.  The persistent resource is outside the
core: `contents` is `none` when `os.path.exists(TASKS_FILE)` is false and
`some s` when the file holds `s`; `jsonLoad` is the external `json.load`,
modelled from the spec as any function returning either a decode failure
or a parsed task collection.  A decode failure is caught and turned into
the empty list, exactly as the source's `try/except json.JSONDecodeError`
does. -/
def load_tasks (contents : Option String)
    (jsonLoad : String → Except JSONDecodeError (List Task)) : List Task :=
  match contents with
  | none => []
  | some s =>
    match jsonLoad s with
    | Except.ok ts => ts
    | Except.error _ => []

/-- The store invariant: all ids in the store are pairwise distinct. -/
def UniqueIds (tasks : List Task) : Prop :=
  (tasks.map Task.id).Nodup

instance (tasks : List Task) : Decidable (UniqueIds tasks) :=
  inferInstanceAs (Decidable (tasks.map Task.id).Nodup)

/-- Sample store entry used by the concrete witnesses, following the
scenario in the specification (ids 1 and 3 in use, so the next id is 2). -/
def milkTask : Task :=
  { id := "1", title := "Buy milk", description := "", due_date := "2024-01-05",
    status := "Pending", priority := some "Low" }

/-- Second sample store entry used by the concrete witnesses. -/
def billsTask : Task :=
  { id := "3", title := "Pay bills", description := "errands",
    due_date := "2024-01-01", status := "Completed", priority := none }

/-- Sample behaviour of the external JSON parse, used by the load
witness: one corrupt content string, everything else parses to a
one-task collection. -/
def sampleLoad : String → Except JSONDecodeError (List Task) :=
  fun s => if s = "junk" then Except.error JSONDecodeError.mk else Except.ok [milkTask]

end TaskManager

namespace TaskManager

theorem toNat_ofNat_digit (k : Nat) (h : k < 10) :
    (Char.ofNat (48 + k)).toNat = 48 + k := by
  have hv : (48 + k).isValidChar := Or.inl (by omega)
  simp [Char.ofNat, Char.toNat, hv, Char.ofNatAux, UInt32.toNat, BitVec.toNat_ofNatLt]

theorem natDigitsAux_append (fuel : Nat) :
    ∀ (n : Nat) (acc : List Char),
      natDigitsAux fuel n acc = natDigitsAux fuel n [] ++ acc := by
  induction fuel with
  | zero => intro n acc; simp [natDigitsAux]
  | succ fuel ih =>
    intro n acc
    by_cases h : n < 10
    · simp [natDigitsAux, h]
    · simp only [natDigitsAux, if_neg h]
      rw [ih (n / 10), ih (n / 10) [Char.ofNat (48 + n % 10)]]
      simp

theorem digitsVal_append (cs : List Char) (c : Char) :
    digitsVal (cs ++ [c]) = 10 * digitsVal cs + (c.toNat - 48) := by
  simp [digitsVal, List.foldl_append]

theorem digitsVal_natDigitsAux (fuel : Nat) :
    ∀ n : Nat, n < fuel → digitsVal (natDigitsAux fuel n []) = n := by
  induction fuel with
  | zero => intro n h; omega
  | succ fuel ih =>
    intro n h
    by_cases h10 : n < 10
    · simp [natDigitsAux, h10, digitsVal, toNat_ofNat_digit (n % 10) (by omega)]
    · have hlt : n / 10 < fuel := by
        have := Nat.div_lt_self (n := n) (by omega) (by omega : 1 < 10)
        omega
      simp only [natDigitsAux, if_neg h10]
      rw [natDigitsAux_append, digitsVal_append, ih (n / 10) hlt,
        toNat_ofNat_digit (n % 10) (Nat.mod_lt n (by omega))]
      omega

theorem natToString_injective : Function.Injective natToString := by
  intro m n h
  have hd : natDigitsAux (m + 1) m [] = natDigitsAux (n + 1) n [] := by
    have h2 : (natToString m).data = (natToString n).data := by rw [h]
    simpa [natToString] using h2
  have h1 := digitsVal_natDigitsAux (m + 1) m (Nat.lt_succ_self m)
  have h2 := digitsVal_natDigitsAux (n + 1) n (Nat.lt_succ_self n)
  rw [hd, h2] at h1
  exact h1.symm

theorem probeId_spec (ids : List String) (fuel : Nat) :
    ∀ start : Nat, (∃ j, j ≤ fuel ∧ natToString (start + j) ∉ ids) →
      start ≤ probeId ids fuel start ∧
      natToString (probeId ids fuel start) ∉ ids ∧
      ∀ k, start ≤ k → k < probeId ids fuel start → natToString k ∈ ids := by
  induction fuel with
  | zero =>
    intro start hfree
    obtain ⟨j, hj, hfree⟩ := hfree
    have hj0 : j = 0 := by omega
    subst hj0
    simp only [Nat.add_zero] at hfree
    refine ⟨Nat.le_refl _, ?_, ?_⟩
    · simpa [probeId] using hfree
    · intro k hk1 hk2
      simp only [probeId] at hk2
      omega
  | succ fuel ih =>
    intro start hfree
    obtain ⟨j, hj, hfree⟩ := hfree
    by_cases hmem : natToString start ∈ ids
    · have hj1 : j ≠ 0 := by
        intro h0
        subst h0
        simp only [Nat.add_zero] at hfree
        exact hfree hmem
      have hfree' : ∃ j', j' ≤ fuel ∧ natToString (start + 1 + j') ∉ ids := by
        refine ⟨j - 1, by omega, ?_⟩
        have he : start + 1 + (j - 1) = start + j := by omega
        rw [he]
        exact hfree
      obtain ⟨h1, h2, h3⟩ := ih (start + 1) hfree'
      have hp : probeId ids (fuel + 1) start = probeId ids fuel (start + 1) := by
        simp [probeId, hmem]
      rw [hp]
      refine ⟨by omega, h2, ?_⟩
      intro k hk1 hk2
      rcases Nat.eq_or_lt_of_le hk1 with he | hl
      · exact he ▸ hmem
      · exact h3 k (by omega) hk2
    · have hp : probeId ids (fuel + 1) start = start := by
        simp [probeId, hmem]
      rw [hp]
      exact ⟨Nat.le_refl _, hmem, by intro k h1 h2; omega⟩

theorem exists_unused_id (ids : List String) (fuel : Nat) (hlen : ids.length ≤ fuel) :
    ∃ j, j ≤ fuel ∧ natToString (1 + j) ∉ ids := by
  by_contra hall
  push_neg at hall
  have hsub : (Finset.range (fuel + 1)).image (fun j => natToString (1 + j)) ⊆
      ids.toFinset := by
    intro s hs
    simp only [Finset.mem_image, Finset.mem_range] at hs
    obtain ⟨j, hj, rfl⟩ := hs
    exact List.mem_toFinset.2 (hall j (by omega))
  have hcard := Finset.card_le_card hsub
  rw [Finset.card_image_of_injective _
    (fun a b hab => by have := natToString_injective hab; omega)] at hcard
  have htf := List.toFinset_card_le ids
  simp only [Finset.card_range] at hcard
  omega

theorem generate_task_id_least (tasks : List Task) :
    ∃ m : Nat, generate_task_id tasks = natToString m ∧ 1 ≤ m ∧
      natToString m ∉ tasks.map Task.id ∧
      ∀ k : Nat, 1 ≤ k → k < m → natToString k ∈ tasks.map Task.id := by
  have hlen : (tasks.map Task.id).length ≤ tasks.length + 1 := by simp
  obtain ⟨h1, h2, h3⟩ := probeId_spec (tasks.map Task.id) (tasks.length + 1) 1
    (exists_unused_id _ _ hlen)
  exact ⟨probeId (tasks.map Task.id) (tasks.length + 1) 1, rfl, h1, h2, h3⟩

theorem generate_task_id_congr (tasks₁ tasks₂ : List Task)
    (h : ∀ s, s ∈ tasks₁.map Task.id ↔ s ∈ tasks₂.map Task.id) :
    generate_task_id tasks₁ = generate_task_id tasks₂ := by
  obtain ⟨m1, he1, hm1, hf1, hl1⟩ := generate_task_id_least tasks₁
  obtain ⟨m2, he2, hm2, hf2, hl2⟩ := generate_task_id_least tasks₂
  have hmm : m1 = m2 := by
    by_contra hne
    rcases Nat.lt_or_ge m1 m2 with hlt | hge
    · exact hf1 ((h _).2 (hl2 m1 hm1 hlt))
    · exact hf2 ((h _).1 (hl1 m2 hm2 (by omega)))
  rw [he1, he2, hmm]

/-- C1: for every collection of tasks, `generate_task_id` returns the
smallest positive integer, rendered as a decimal string, that is not
already used as an id in the collection; the result is determined by the
current id set alone. -/
theorem C1_generate_task_id_smallest_unused (tasks : List Task) :
    (∃ m : Nat, generate_task_id tasks = natToString m ∧ 1 ≤ m ∧
      natToString m ∉ tasks.map Task.id ∧
      ∀ k : Nat, 1 ≤ k → k < m → natToString k ∈ tasks.map Task.id) ∧
    ∀ tasks₂ : List Task,
      (∀ s, s ∈ tasks.map Task.id ↔ s ∈ tasks₂.map Task.id) →
      generate_task_id tasks = generate_task_id tasks₂ :=
  ⟨generate_task_id_least tasks, fun tasks₂ h => generate_task_id_congr tasks tasks₂ h⟩

/-- C1 witness: on the spec's example store with ids 1 and 3 the next id
is the string 2, and the characterization theorem applies there. -/
theorem C1_generate_task_id_smallest_unused_witness :
    generate_task_id [milkTask, billsTask] = "2" ∧
    ((∃ m : Nat, generate_task_id [milkTask, billsTask] = natToString m ∧ 1 ≤ m ∧
      natToString m ∉ [milkTask, billsTask].map Task.id ∧
      ∀ k : Nat, 1 ≤ k → k < m → natToString k ∈ [milkTask, billsTask].map Task.id) ∧
    ∀ tasks₂ : List Task,
      (∀ s, s ∈ [milkTask, billsTask].map Task.id ↔ s ∈ tasks₂.map Task.id) →
      generate_task_id [milkTask, billsTask] = generate_task_id tasks₂) :=
  ⟨by decide, C1_generate_task_id_smallest_unused [milkTask, billsTask]⟩

end TaskManager

namespace TaskManager

theorem applyUpdate_id (t : Task) (d due s p : String) :
    (applyUpdate t d due s p).id = t.id := by
  unfold applyUpdate
  split <;> split <;> split <;> split <;> rfl

theorem applyUpdate_blank (t : Task) : applyUpdate t "" "" "" "" = t := by
  have h1 : ¬ (("" : String) ∈ STATUS_OPTIONS) := by decide
  have h2 : ¬ (("" : String) ∈ PRIORITY_LEVELS) := by decide
  simp [applyUpdate, h1, h2]

theorem update_task_some_eq :
    ∀ (tasks : List Task) (task_id desc due st pr : String) (tasks' : List Task),
      update_task tasks task_id desc due st pr = some tasks' →
      ∃ pre x post, tasks = pre ++ x :: post ∧ x.id = task_id ∧
        (∀ u ∈ pre, u.id ≠ task_id) ∧
        tasks' = pre ++ applyUpdate x desc due st pr :: post := by
  intro tasks
  induction tasks with
  | nil => intro tid d due s p t' h; simp [update_task] at h
  | cons t rest ih =>
    intro tid d due s p t' h
    by_cases hid : t.id = tid
    · rw [update_task, if_pos hid, Option.some_inj] at h
      exact ⟨[], t, rest, by simp, hid, by simp, by simp [← h]⟩
    · rw [update_task, if_neg hid, Option.map_eq_some'] at h
      obtain ⟨rest', hrest, rfl⟩ := h
      obtain ⟨pre, x, post, h1, h2, h3, h4⟩ := ih tid d due s p rest' hrest
      refine ⟨t :: pre, x, post, by simp [h1], h2, ?_, by simp [h4]⟩
      intro u hu
      rcases List.mem_cons.1 hu with rfl | hu
      · exact hid
      · exact h3 u hu

theorem mark_completed_some_eq :
    ∀ (tasks : List Task) (task_id : String) (tasks' : List Task),
      mark_completed tasks task_id = some tasks' →
      ∃ pre x post, tasks = pre ++ x :: post ∧ x.id = task_id ∧
        (∀ u ∈ pre, u.id ≠ task_id) ∧
        tasks' = pre ++ { x with status := "Completed" } :: post := by
  intro tasks
  induction tasks with
  | nil => intro tid t' h; simp [mark_completed] at h
  | cons t rest ih =>
    intro tid t' h
    by_cases hid : t.id = tid
    · rw [mark_completed, if_pos hid, Option.some_inj] at h
      exact ⟨[], t, rest, by simp, hid, by simp, by simp [← h]⟩
    · rw [mark_completed, if_neg hid, Option.map_eq_some'] at h
      obtain ⟨rest', hrest, rfl⟩ := h
      obtain ⟨pre, x, post, h1, h2, h3, h4⟩ := ih tid rest' hrest
      refine ⟨t :: pre, x, post, by simp [h1], h2, ?_, by simp [h4]⟩
      intro u hu
      rcases List.mem_cons.1 hu with rfl | hu
      · exact hid
      · exact h3 u hu

theorem delete_task_some_eq :
    ∀ (tasks : List Task) (task_id : String) (tasks' : List Task),
      delete_task tasks task_id = some tasks' →
      ∃ pre x post, tasks = pre ++ x :: post ∧ x.id = task_id ∧
        (∀ u ∈ pre, u.id ≠ task_id) ∧
        tasks' = pre ++ post := by
  intro tasks
  induction tasks with
  | nil => intro tid t' h; simp [delete_task] at h
  | cons t rest ih =>
    intro tid t' h
    by_cases hid : t.id = tid
    · rw [delete_task, if_pos hid, Option.some_inj] at h
      exact ⟨[], t, rest, by simp, hid, by simp, by simp [← h]⟩
    · rw [delete_task, if_neg hid, Option.map_eq_some'] at h
      obtain ⟨rest', hrest, rfl⟩ := h
      obtain ⟨pre, x, post, h1, h2, h3, h4⟩ := ih tid rest' hrest
      refine ⟨t :: pre, x, post, by simp [h1], h2, ?_, by simp [h4]⟩
      intro u hu
      rcases List.mem_cons.1 hu with rfl | hu
      · exact hid
      · exact h3 u hu

theorem delete_task_none_iff (tasks : List Task) (task_id : String) :
    delete_task tasks task_id = none ↔ ∀ t ∈ tasks, t.id ≠ task_id := by
  induction tasks with
  | nil => simp [delete_task]
  | cons t rest ih =>
    by_cases hid : t.id = task_id
    · simp [delete_task, hid]
    · simp [delete_task, hid, ih]

theorem mark_completed_isSome (tasks : List Task) (task_id : String)
    (h : task_id ∈ tasks.map Task.id) :
    ∃ tasks', mark_completed tasks task_id = some tasks' := by
  induction tasks with
  | nil => simp at h
  | cons t rest ih =>
    by_cases hid : t.id = task_id
    · exact ⟨_, by rw [mark_completed, if_pos hid]⟩
    · have hmem : task_id ∈ rest.map Task.id := by
        simp only [List.map_cons, List.mem_cons] at h
        rcases h with h | h
        · exact absurd h.symm hid
        · exact h
      obtain ⟨t', ht'⟩ := ih hmem
      exact ⟨t :: t', by rw [mark_completed, if_neg hid, ht', Option.map_some']⟩

theorem update_task_map_id (tasks : List Task) (task_id desc due st pr : String)
    (tasks' : List Task) (h : update_task tasks task_id desc due st pr = some tasks') :
    tasks'.map Task.id = tasks.map Task.id := by
  obtain ⟨pre, x, post, h1, _, _, h4⟩ := update_task_some_eq tasks task_id desc due st pr tasks' h
  subst h1 h4
  simp [applyUpdate_id]

theorem mark_completed_map_id (tasks : List Task) (task_id : String)
    (tasks' : List Task) (h : mark_completed tasks task_id = some tasks') :
    tasks'.map Task.id = tasks.map Task.id := by
  obtain ⟨pre, x, post, h1, _, _, h4⟩ := mark_completed_some_eq tasks task_id tasks' h
  subst h1 h4
  simp

theorem delete_task_sublist (tasks : List Task) (task_id : String)
    (tasks' : List Task) (h : delete_task tasks task_id = some tasks') :
    tasks'.Sublist tasks := by
  obtain ⟨pre, x, post, h1, _, _, h4⟩ := delete_task_some_eq tasks task_id tasks' h
  subst h1 h4
  exact (List.sublist_cons_self x post).append_left pre

theorem generate_task_id_not_mem (tasks : List Task) :
    generate_task_id tasks ∉ tasks.map Task.id := by
  obtain ⟨m, he, _, hf, _⟩ := generate_task_id_least tasks
  rw [he]
  exact hf

theorem uniqueIds_add (tasks : List Task) (h : UniqueIds tasks)
    (title desc due pr : String) :
    UniqueIds (add_task tasks title desc due pr).1 := by
  have hf := generate_task_id_not_mem tasks
  unfold UniqueIds add_task
  simp only [List.map_append, List.map_cons, List.map_nil]
  rw [List.nodup_append]
  refine ⟨h, List.nodup_singleton _, ?_⟩
  intro a ha hb
  simp only [List.mem_singleton] at hb
  exact hf (hb ▸ ha)

theorem uniqueIds_add_many (args : List (String × String × String × String)) :
    ∀ tasks : List Task, UniqueIds tasks → UniqueIds (add_many tasks args) := by
  induction args with
  | nil => intro tasks h; exact h
  | cons a rest ih =>
    intro tasks h
    exact ih _ (uniqueIds_add tasks h a.1 a.2.1 a.2.2.1 a.2.2.2)

/-- C2: when all ids in the store are distinct, Add, Update, MarkCompleted
and Delete each yield a store whose ids are again pairwise distinct, every
Add returns a task whose id is not used by any existing task, and any
sequence of Add calls keeps all ids distinct. -/
theorem C2_operations_preserve_unique_ids (tasks : List Task) (h : UniqueIds tasks) :
    (∀ title desc due pr : String,
      UniqueIds (add_task tasks title desc due pr).1 ∧
      (add_task tasks title desc due pr).2.id ∉ tasks.map Task.id) ∧
    (∀ args : List (String × String × String × String), UniqueIds (add_many tasks args)) ∧
    (∀ task_id desc due st pr : String, ∀ tasks' : List Task,
      update_task tasks task_id desc due st pr = some tasks' → UniqueIds tasks') ∧
    (∀ task_id : String, ∀ tasks' : List Task,
      mark_completed tasks task_id = some tasks' → UniqueIds tasks') ∧
    (∀ task_id : String, ∀ tasks' : List Task,
      delete_task tasks task_id = some tasks' → UniqueIds tasks') := by
  refine ⟨?_, ?_, ?_, ?_, ?_⟩
  · intro title desc due pr
    exact ⟨uniqueIds_add tasks h title desc due pr, generate_task_id_not_mem tasks⟩
  · intro args
    exact uniqueIds_add_many args tasks h
  · intro task_id desc due st pr tasks' hu
    unfold UniqueIds
    rw [update_task_map_id tasks task_id desc due st pr tasks' hu]
    exact h
  · intro task_id tasks' hm
    unfold UniqueIds
    rw [mark_completed_map_id tasks task_id tasks' hm]
    exact h
  · intro task_id tasks' hd
    exact ((delete_task_sublist tasks task_id tasks' hd).map Task.id).nodup h

/-- C2 witness: the invariant-preservation theorem applied to the concrete
two-task store with distinct ids 1 and 3. -/
theorem C2_operations_preserve_unique_ids_witness :
    UniqueIds [milkTask, billsTask] ∧
    ((∀ title desc due pr : String,
      UniqueIds (add_task [milkTask, billsTask] title desc due pr).1 ∧
      (add_task [milkTask, billsTask] title desc due pr).2.id ∉
        [milkTask, billsTask].map Task.id) ∧
    (∀ args : List (String × String × String × String),
      UniqueIds (add_many [milkTask, billsTask] args)) ∧
    (∀ task_id desc due st pr : String, ∀ tasks' : List Task,
      update_task [milkTask, billsTask] task_id desc due st pr = some tasks' →
      UniqueIds tasks') ∧
    (∀ task_id : String, ∀ tasks' : List Task,
      mark_completed [milkTask, billsTask] task_id = some tasks' → UniqueIds tasks') ∧
    (∀ task_id : String, ∀ tasks' : List Task,
      delete_task [milkTask, billsTask] task_id = some tasks' → UniqueIds tasks')) :=
  ⟨by decide, C2_operations_preserve_unique_ids [milkTask, billsTask] (by decide)⟩

end TaskManager

namespace TaskManager

theorem uniqueIds_split (pre : List Task) (x : Task) (post : List Task)
    (h : UniqueIds (pre ++ x :: post)) :
    x.id ∉ pre.map Task.id ∧ x.id ∉ post.map Task.id := by
  unfold UniqueIds at h
  simp only [List.map_append, List.map_cons] at h
  rw [List.nodup_append] at h
  obtain ⟨h1, h2, h3⟩ := h
  rw [List.nodup_cons] at h2
  exact ⟨fun hm => h3 hm (List.mem_cons_self _ _), h2.1⟩

theorem delete_task_id_not_mem (tasks : List Task) (task_id : String)
    (tasks' : List Task) (h : UniqueIds tasks)
    (hd : delete_task tasks task_id = some tasks') :
    ∀ t ∈ tasks', t.id ≠ task_id := by
  obtain ⟨pre, x, post, h1, h2, h3, h4⟩ := delete_task_some_eq tasks task_id tasks' hd
  subst h1 h4
  obtain ⟨hpre, hpost⟩ := uniqueIds_split pre x post h
  intro t ht heq
  rcases List.mem_append.1 ht with hin | hin
  · exact hpre (h2 ▸ heq ▸ List.mem_map_of_mem Task.id hin)
  · exact hpost (h2 ▸ heq ▸ List.mem_map_of_mem Task.id hin)

/-- C3: Delete removes the first (only) task with the given id when
present and fails (reporting not-found, store untouched) when absent;
after a successful delete no Search, Filter or Sort result contains a
task with that id, and the Summary total drops by exactly one. -/
theorem C3_delete_task_removes_id (tasks : List Task) (task_id : String)
    (h : UniqueIds tasks) :
    (delete_task tasks task_id = none ↔ ∀ t ∈ tasks, t.id ≠ task_id) ∧
    ∀ tasks' : List Task, delete_task tasks task_id = some tasks' →
      (∃ pre x post, tasks = pre ++ x :: post ∧ x.id = task_id ∧
        (∀ u ∈ pre, u.id ≠ task_id) ∧ tasks' = pre ++ post) ∧
      (∀ t ∈ tasks', t.id ≠ task_id) ∧
      (∀ keyword : String, ∀ t ∈ search_tasks tasks' keyword, t.id ≠ task_id) ∧
      (∀ c : FilterChoice, ∀ t ∈ filter_tasks tasks' c, t.id ≠ task_id) ∧
      (∀ t ∈ sort_tasks tasks', t.id ≠ task_id) ∧
      (task_summary tasks').total + 1 = (task_summary tasks).total := by
  refine ⟨delete_task_none_iff tasks task_id, ?_⟩
  intro tasks' hd
  have hne := delete_task_id_not_mem tasks task_id tasks' h hd
  obtain ⟨pre, x, post, h1, h2, h3, h4⟩ := delete_task_some_eq tasks task_id tasks' hd
  refine ⟨⟨pre, x, post, h1, h2, h3, h4⟩, hne, ?_, ?_, ?_, ?_⟩
  · intro kw t ht
    simp only [search_tasks] at ht
    exact hne t (List.mem_of_mem_filter ht)
  · intro c t ht
    cases c <;> simp only [filter_tasks] at ht <;>
      exact hne t (List.mem_of_mem_filter ht)
  · intro t ht
    simp only [sort_tasks] at ht
    exact hne t ((List.mergeSort_perm tasks' dueLe).mem_iff.1 ht)
  · subst h1 h4
    simp only [task_summary, List.length_append, List.length_cons]
    omega

/-- C3 witness: deleting id 1 from the concrete two-task store. -/
theorem C3_delete_task_removes_id_witness :
    UniqueIds [milkTask, billsTask] ∧
    ((delete_task [milkTask, billsTask] "1" = none ↔
      ∀ t ∈ [milkTask, billsTask], t.id ≠ "1") ∧
    ∀ tasks' : List Task, delete_task [milkTask, billsTask] "1" = some tasks' →
      (∃ pre x post, [milkTask, billsTask] = pre ++ x :: post ∧ x.id = "1" ∧
        (∀ u ∈ pre, u.id ≠ "1") ∧ tasks' = pre ++ post) ∧
      (∀ t ∈ tasks', t.id ≠ "1") ∧
      (∀ keyword : String, ∀ t ∈ search_tasks tasks' keyword, t.id ≠ "1") ∧
      (∀ c : FilterChoice, ∀ t ∈ filter_tasks tasks' c, t.id ≠ "1") ∧
      (∀ t ∈ sort_tasks tasks', t.id ≠ "1") ∧
      (task_summary tasks').total + 1 = (task_summary [milkTask, billsTask]).total) :=
  ⟨by decide, C3_delete_task_removes_id [milkTask, billsTask] "1" (by decide)⟩

theorem mark_completed_append (pre : List Task) (y : Task) (post : List Task)
    (tid : String) (hpre : ∀ u ∈ pre, u.id ≠ tid) (hy : y.id = tid) :
    mark_completed (pre ++ y :: post) tid =
      some (pre ++ { y with status := "Completed" } :: post) := by
  induction pre with
  | nil => simp [mark_completed, hy]
  | cons u rest ih =>
    have hu : u.id ≠ tid := hpre u (List.mem_cons_self u rest)
    have hrest := ih (fun v hv => hpre v (List.mem_cons_of_mem u hv))
    simp [mark_completed, hu, hrest]

theorem task_set_status_self (t : Task) (s : String) (h : t.status = s) :
    { t with status := s } = t := by
  cases t
  cases h
  rfl

/-- C4: MarkCompleted on a present id succeeds, sets the status of the
matched task to Completed unconditionally, is idempotent (a second call
returns the same store), and marking an already-completed task succeeds
without changing the store. -/
theorem C4_mark_completed_idempotent (tasks : List Task) (task_id : String)
    (h : UniqueIds tasks) (hmem : task_id ∈ tasks.map Task.id) :
    ∃ tasks', mark_completed tasks task_id = some tasks' ∧
      mark_completed tasks' task_id = some tasks' ∧
      (∀ t ∈ tasks', t.id = task_id → t.status = "Completed") ∧
      ((∀ t ∈ tasks, t.id = task_id → t.status = "Completed") → tasks' = tasks) := by
  obtain ⟨tasks', hm⟩ := mark_completed_isSome tasks task_id hmem
  obtain ⟨pre, x, post, h1, h2, h3, h4⟩ := mark_completed_some_eq tasks task_id tasks' hm
  refine ⟨tasks', hm, ?_, ?_, ?_⟩
  · rw [h4]
    rw [mark_completed_append pre { x with status := "Completed" } post task_id h3 h2]
  · intro t ht heq
    rw [h4] at ht
    rw [h1] at h
    obtain ⟨hpreid, hpostid⟩ := uniqueIds_split pre x post h
    rcases List.mem_append.1 ht with hin | hin
    · exact absurd heq (h3 t hin)
    · rcases List.mem_cons.1 hin with rfl | hin
      · rfl
      · exact absurd (h2 ▸ heq ▸ List.mem_map_of_mem Task.id hin) hpostid
  · intro hall
    have hx : x.status = "Completed" := by
      apply hall x _ h2
      rw [h1]
      exact List.mem_append.2 (Or.inr (List.mem_cons_self x post))
    rw [h4, h1, task_set_status_self x "Completed" hx]

/-- C4 witness: marking id 1 completed in the concrete two-task store. -/
theorem C4_mark_completed_idempotent_witness :
    UniqueIds [milkTask, billsTask] ∧ "1" ∈ [milkTask, billsTask].map Task.id ∧
    ∃ tasks', mark_completed [milkTask, billsTask] "1" = some tasks' ∧
      mark_completed tasks' "1" = some tasks' ∧
      (∀ t ∈ tasks', t.id = "1" → t.status = "Completed") ∧
      ((∀ t ∈ [milkTask, billsTask], t.id = "1" → t.status = "Completed") →
        tasks' = [milkTask, billsTask]) :=
  ⟨by decide, by decide,
    C4_mark_completed_idempotent [milkTask, billsTask] "1" (by decide) (by decide)⟩

/-- C10: MarkCompleted changes only the status field of the matched task:
the store keeps its length and order, every other task is untouched, and
the matched task keeps its id, title, description, due date and
priority. -/
theorem C10_mark_completed_frame (tasks : List Task) (task_id : String)
    (tasks' : List Task) (h : mark_completed tasks task_id = some tasks') :
    tasks'.length = tasks.length ∧
    ∃ pre x x' post, tasks = pre ++ x :: post ∧ tasks' = pre ++ x' :: post ∧
      x.id = task_id ∧ (∀ u ∈ pre, u.id ≠ task_id) ∧
      x'.id = x.id ∧ x'.title = x.title ∧ x'.description = x.description ∧
      x'.due_date = x.due_date ∧ x'.priority = x.priority ∧
      x'.status = "Completed" := by
  obtain ⟨pre, x, post, h1, h2, h3, h4⟩ := mark_completed_some_eq tasks task_id tasks' h
  subst h1 h4
  exact ⟨by simp, pre, x, { x with status := "Completed" }, post,
    rfl, rfl, h2, h3, rfl, rfl, rfl, rfl, rfl, rfl⟩

/-- C10 witness: the frame theorem applied to marking id 1 in the
concrete two-task store. -/
theorem C10_mark_completed_frame_witness :
    mark_completed [milkTask, billsTask] "1" =
      some [{ milkTask with status := "Completed" }, billsTask] ∧
    ([{ milkTask with status := "Completed" }, billsTask].length =
      [milkTask, billsTask].length ∧
    ∃ pre x x' post, [milkTask, billsTask] = pre ++ x :: post ∧
      [{ milkTask with status := "Completed" }, billsTask] = pre ++ x' :: post ∧
      x.id = "1" ∧ (∀ u ∈ pre, u.id ≠ "1") ∧
      x'.id = x.id ∧ x'.title = x.title ∧ x'.description = x.description ∧
      x'.due_date = x.due_date ∧ x'.priority = x.priority ∧
      x'.status = "Completed") :=
  ⟨by decide, C10_mark_completed_frame [milkTask, billsTask] "1"
    [{ milkTask with status := "Completed" }, billsTask] (by decide)⟩

/-- C6: Update with every optional field left blank is the identity: the
matched task and the whole store are returned unchanged. -/
theorem C6_update_blank_identity (tasks : List Task) (task_id : String)
    (h : task_id ∈ tasks.map Task.id) :
    update_task tasks task_id "" "" "" "" = some tasks := by
  induction tasks with
  | nil => simp at h
  | cons t rest ih =>
    by_cases hid : t.id = task_id
    · rw [update_task, if_pos hid, applyUpdate_blank]
    · have hmem : task_id ∈ rest.map Task.id := by
        simp only [List.map_cons, List.mem_cons] at h
        rcases h with h | h
        · exact absurd h.symm hid
        · exact h
      rw [update_task, if_neg hid, ih hmem, Option.map_some']

/-- C6 witness: a blank update of id 3 leaves the concrete store as it
was. -/
theorem C6_update_blank_identity_witness :
    update_task [milkTask, billsTask] "3" "" "" "" "" = some [milkTask, billsTask] :=
  C6_update_blank_identity [milkTask, billsTask] "3" (by decide)

end TaskManager

namespace TaskManager

theorem dueLe_trans : ∀ a b c : Task,
    dueLe a b = true → dueLe b c = true → dueLe a c = true := by
  intro a b c hab hbc
  simp only [dueLe, decide_eq_true_eq] at hab hbc ⊢
  exact le_trans hab hbc

theorem dueLe_total : ∀ a b : Task, (dueLe a b || dueLe b a) = true := by
  intro a b
  simp only [dueLe, Bool.or_eq_true, decide_eq_true_eq]
  exact le_total a.due_date b.due_date

/-- C5: Sort returns the tasks in non-decreasing due-date order (a
permutation of the input), ties keep their original relative order, and
sorting twice equals sorting once. -/
theorem C5_sort_tasks_stable_sorted (tasks : List Task) :
    List.Pairwise (fun a b => a.due_date ≤ b.due_date) (sort_tasks tasks) ∧
    (sort_tasks tasks).Perm tasks ∧
    (∀ d : String, (sort_tasks tasks).filter (fun t => t.due_date == d) =
      tasks.filter (fun t => t.due_date == d)) ∧
    sort_tasks (sort_tasks tasks) = sort_tasks tasks := by
  refine ⟨?_, ?_, ?_, ?_⟩
  · exact (List.sorted_mergeSort dueLe_trans dueLe_total tasks).imp
      (fun h => of_decide_eq_true h)
  · exact List.mergeSort_perm tasks dueLe
  · intro d
    set p : Task → Bool := fun t => t.due_date == d with hp
    have hall : ∀ a ∈ tasks.filter p, ∀ b ∈ tasks.filter p, dueLe a b = true := by
      intro a ha b hb
      have ha2 : a.due_date = d := by
        have := (List.mem_filter.1 ha).2
        simpa [hp] using this
      have hb2 : b.due_date = d := by
        have := (List.mem_filter.1 hb).2
        simpa [hp] using this
      simp [dueLe, ha2, hb2]
    have hpair : List.Pairwise (fun a b => dueLe a b = true) (tasks.filter p) :=
      List.pairwise_of_forall_mem_list hall
    have hsl : (tasks.filter p).Sublist (tasks.mergeSort dueLe) :=
      List.sublist_mergeSort dueLe_trans dueLe_total hpair (List.filter_sublist tasks)
    have hself : (tasks.filter p).filter p = tasks.filter p :=
      List.filter_eq_self.2 (fun a ha => (List.mem_filter.1 ha).2)
    have hsubf : (tasks.filter p).filter p |>.Sublist ((tasks.mergeSort dueLe).filter p) :=
      hsl.filter p
    rw [hself] at hsubf
    have hperm : ((tasks.mergeSort dueLe).filter p).Perm (tasks.filter p) :=
      (List.mergeSort_perm tasks dueLe).filter p
    have hlen : (tasks.filter p).length = ((tasks.mergeSort dueLe).filter p).length :=
      hperm.length_eq.symm
    exact (hsubf.eq_of_length hlen).symm
  · exact List.mergeSort_of_sorted (List.sorted_mergeSort dueLe_trans dueLe_total tasks)

theorem length_eq_countP_add_countP (tasks : List Task)
    (h : ∀ t ∈ tasks, t.status = "Pending" ∨ t.status = "Completed") :
    tasks.length = tasks.countP (fun t => t.status == "Pending") +
      tasks.countP (fun t => t.status == "Completed") := by
  induction tasks with
  | nil => simp
  | cons t rest ih =>
    have ht := h t (List.mem_cons_self t rest)
    have hrest := ih (fun u hu => h u (List.mem_cons_of_mem t hu))
    simp only [List.countP_cons, List.length_cons]
    rcases ht with hs | hs
    · have h1 : (t.status == "Pending") = true := by simp [hs]
      have h2 : (t.status == "Completed") = false := by simp [hs]
      rw [h1, h2]
      simp
      omega
    · have h1 : (t.status == "Pending") = false := by simp [hs]
      have h2 : (t.status == "Completed") = true := by simp [hs]
      rw [h1, h2]
      simp
      omega

/-- C7: Summary reports the store length as total, the number of Pending
tasks as pending and the number of Completed tasks as completed; when
every status is one of the two enumerated values, total equals pending
plus completed. -/
theorem C7_task_summary_counts (tasks : List Task) :
    (task_summary tasks).total = tasks.length ∧
    (task_summary tasks).pending =
      (tasks.filter (fun t => t.status == "Pending")).length ∧
    (task_summary tasks).completed =
      (tasks.filter (fun t => t.status == "Completed")).length ∧
    ((∀ t ∈ tasks, t.status = "Pending" ∨ t.status = "Completed") →
      (task_summary tasks).total =
        (task_summary tasks).pending + (task_summary tasks).completed) := by
  refine ⟨rfl, List.countP_eq_length_filter _ _, List.countP_eq_length_filter _ _, ?_⟩
  intro hstatus
  exact length_eq_countP_add_countP tasks hstatus

/-- C7 witness: summary counts on the concrete two-task store, whose
statuses are all enumerated, so total is pending plus completed there. -/
theorem C7_task_summary_counts_witness :
    ((task_summary [milkTask, billsTask]).total = [milkTask, billsTask].length ∧
    (task_summary [milkTask, billsTask]).pending =
      ([milkTask, billsTask].filter (fun t => t.status == "Pending")).length ∧
    (task_summary [milkTask, billsTask]).completed =
      ([milkTask, billsTask].filter (fun t => t.status == "Completed")).length) ∧
    (task_summary [milkTask, billsTask]).total =
      (task_summary [milkTask, billsTask]).pending +
        (task_summary [milkTask, billsTask]).completed :=
  ⟨⟨(C7_task_summary_counts [milkTask, billsTask]).1,
    (C7_task_summary_counts [milkTask, billsTask]).2.1,
    (C7_task_summary_counts [milkTask, billsTask]).2.2.1⟩,
   (C7_task_summary_counts [milkTask, billsTask]).2.2.2 (by decide)⟩

/-- C8: filtering by a priority returns exactly the tasks whose priority,
defaulting to Medium when absent, equals it; in particular a task with no
priority field is returned by the Medium filter. -/
theorem C8_filter_by_priority (tasks : List Task) (p : String)
    (_hp : p ∈ PRIORITY_LEVELS) :
    (∀ t : Task, t ∈ filter_tasks tasks (FilterChoice.byPriority p) ↔
      t ∈ tasks ∧ t.priority.getD "Medium" = p) ∧
    (∀ t ∈ tasks, t.priority = none →
      t ∈ filter_tasks tasks (FilterChoice.byPriority "Medium")) := by
  constructor
  · intro t
    simp [filter_tasks, List.mem_filter]
  · intro t ht hnone
    simp only [filter_tasks]
    exact List.mem_filter.2 ⟨ht, by simp [hnone]⟩

/-- C8 witness: the Medium filter on the concrete store picks out exactly
the task with no priority field. -/
theorem C8_filter_by_priority_witness :
    ("Medium" ∈ PRIORITY_LEVELS) ∧
    ((∀ t : Task, t ∈ filter_tasks [milkTask, billsTask] (FilterChoice.byPriority "Medium") ↔
      t ∈ [milkTask, billsTask] ∧ t.priority.getD "Medium" = "Medium") ∧
    (∀ t ∈ [milkTask, billsTask], t.priority = none →
      t ∈ filter_tasks [milkTask, billsTask] (FilterChoice.byPriority "Medium"))) :=
  ⟨by decide, C8_filter_by_priority [milkTask, billsTask] "Medium" (by decide)⟩

/-- C9: Load returns the empty collection when the persistent resource is
absent and when its content fails to parse, and returns the parsed
collection otherwise; a parse failure is always absorbed, never
propagated. -/
theorem C9_load_tasks_recovers (jsonLoad : String → Except JSONDecodeError (List Task)) :
    load_tasks none jsonLoad = [] ∧
    (∀ s : String, ∀ e : JSONDecodeError, jsonLoad s = Except.error e →
      load_tasks (some s) jsonLoad = []) ∧
    (∀ s : String, ∀ ts : List Task, jsonLoad s = Except.ok ts →
      load_tasks (some s) jsonLoad = ts) := by
  refine ⟨rfl, ?_, ?_⟩
  · intro s e he
    simp [load_tasks, he]
  · intro s ts ho
    simp [load_tasks, ho]

/-- C9 witness: with a concrete parse behaviour, a missing file and a
corrupt file both load as the empty store, and parsed content is returned
as is. -/
theorem C9_load_tasks_recovers_witness :
    load_tasks none sampleLoad = [] ∧
    load_tasks (some "junk") sampleLoad = [] ∧
    load_tasks (some "ok") sampleLoad = [milkTask] :=
  ⟨(C9_load_tasks_recovers sampleLoad).1,
   (C9_load_tasks_recovers sampleLoad).2.1 "junk" JSONDecodeError.mk (by rfl),
   (C9_load_tasks_recovers sampleLoad).2.2 "ok" [milkTask] (by rfl)⟩

end TaskManager
